import Mathlib

/-!
Verification development for the avalok8s backend core: the
state-cache-and-broadcast pipeline implemented by `getClusterState`,
`refreshClusterCacheAndNotify` and `StreamClusterState`.

Modelling conventions:
* Go slices that the code distinguishes from `nil` are modelled as
  `Option (List _)`, with `none` standing for the `nil` slice.
* The Go map `nodesMap` is modelled as an association list with
  overwrite-on-insert semantics; since Go map iteration order is
  unspecified, the conversion of the map to a slice takes an explicit
  iteration `order` parameter (a permutation of the map's keys).
* The single shared buffered channel `clusterStateEventChannel`
  (capacity 10) is a FIFO list of strings, bounded to length 10.
* An SSE consumer session is the list of payload strings written to it,
  oldest first.
-/

/-- PodInfo, as in the source: name, namespace, status (phase) and the
name of the node the pod is bound to. -/
structure PodInfo where
  Name : String
  Namespace : String
  Status : String
  Node : String
deriving DecidableEq, Repr

/-- NodeInfo, as in the source: node name and the pods assigned to it. -/
structure NodeInfo where
  Name : String
  Pods : List PodInfo
deriving DecidableEq, Repr

/-- Raw pod record as obtained from the pod-list fetch: the fields of the
Kubernetes object that `getClusterState` reads. -/
structure RawPod where
  Name : String
  Namespace : String
  Phase : String
  NodeName : String
deriving DecidableEq, Repr

/-- Outcome of one collection cycle's two fetches: the node-list fetch may
fail, the pod-list fetch may fail after the nodes were listed, or both
succeed with raw data. -/
inductive FetchResult where
  | errNodes : FetchResult
  | errPods : List String → FetchResult
  | ok : List String → List RawPod → FetchResult
deriving DecidableEq, Repr

/-- The PodInfo value `getClusterState` builds from one raw pod. -/
def podInfoOf (p : RawPod) : PodInfo :=
  { Name := p.Name, Namespace := p.Namespace, Status := p.Phase, Node := p.NodeName }

/-- Lookup in the association-list model of the Go map `nodesMap`. -/
def mapLookup (m : List (String × NodeInfo)) (k : String) : Option NodeInfo :=
  match m with
  | [] => none
  | (k', v) :: rest => if k' = k then some v else mapLookup rest k

/-- Insert (overwriting an existing binding) in the association-list model
of the Go map `nodesMap`. -/
def mapInsert (m : List (String × NodeInfo)) (k : String) (v : NodeInfo) :
    List (String × NodeInfo) :=
  match m with
  | [] => [(k, v)]
  | (k', v') :: rest =>
      if k' = k then (k, v) :: rest else (k', v') :: mapInsert rest k v

/-- Keys of the association-list map. -/
def mapKeys (m : List (String × NodeInfo)) : List String :=
  m.map Prod.fst

/-- First loop of `getClusterState`: one map entry per raw node name, with
an initially empty pod list. -/
def initNodesMap (rawNodes : List String) : List (String × NodeInfo) :=
  rawNodes.foldl (fun m n => mapInsert m n { Name := n, Pods := [] }) []

/-- Second loop of `getClusterState`: each pod whose `NodeName` matches a
known map entry is appended to that entry's pod list; other pods are
skipped. -/
def assignPods (rawPods : List RawPod) (m : List (String × NodeInfo)) :
    List (String × NodeInfo) :=
  rawPods.foldl
    (fun m p =>
      match mapLookup m p.NodeName with
      | some node =>
          mapInsert m p.NodeName { Name := node.Name, Pods := node.Pods ++ [podInfoOf p] }
      | none => m)
    m

/-- Code-point-wise lexicographic comparison of character lists: the
total order Go's byte-wise `<` on (ASCII) strings induces. -/
def charListLe (a b : List Char) : Bool :=
  match a, b with
  | [], _ => true
  | _ :: _, [] => false
  | c₁ :: r₁, c₂ :: r₂ =>
      if c₁.toNat < c₂.toNat then true
      else if c₂.toNat < c₁.toNat then false
      else charListLe r₁ r₂

/-- Lexicographic comparison of strings by their character sequences. -/
def strLe (a b : String) : Bool :=
  charListLe a.data b.data

/-- Comparison used by `sort.Slice` in the source: by node name. -/
def nodeLe (a b : NodeInfo) : Prop :=
  strLe a.Name b.Name = true

instance : DecidableRel nodeLe := fun a b => by
  unfold nodeLe; infer_instance

/-- Final sort of `getClusterState`: by node name. -/
def sortNodes (l : List NodeInfo) : List NodeInfo :=
  l.insertionSort nodeLe

/-- An admissible Go map iteration order for the nodes map built from
`rawNodes`: a permutation of the map's keys. -/
def validOrder (rawNodes : List String) (order : List String) : Prop :=
  order.Perm (mapKeys (initNodesMap rawNodes))

/-- getClusterState: fetch nodes (may fail), fetch pods (may fail), build
the map, convert it to a slice in map-iteration `order`, sort by node
name. A failed fetch returns `none` (the Go `nil` slice); an empty map
also leaves the Go result slice `nil`, hence `none`. -/
def getClusterState (f : FetchResult) (order : List String) :
    Option (List NodeInfo) :=
  match f with
  | .errNodes => none
  | .errPods _ => none
  | .ok rawNodes rawPods =>
      let m := assignPods rawPods (initNodesMap rawNodes)
      if m = [] then none
      else some (sortNodes (order.filterMap (mapLookup m)))

/-- Serialization model: JSON string literal (escaping elided). -/
def jstr (s : String) : String :=
  "\"" ++ s ++ "\""

/-- Serialization model: JSON object for one pod. -/
def serializePod (p : PodInfo) : String :=
  "\x7b\"name\":" ++ jstr p.Name ++ ",\"namespace\":" ++ jstr p.Namespace ++
    ",\"status\":" ++ jstr p.Status ++ ",\"node\":" ++ jstr p.Node ++ "\x7d"

/-- Serialization model: JSON array. -/
def serializeList (f : α → String) (l : List α) : String :=
  "[" ++ String.intercalate "," (l.map f) ++ "]"

/-- Serialization model: JSON object for one node. -/
def serializeNode (n : NodeInfo) : String :=
  "\x7b\"name\":" ++ jstr n.Name ++ ",\"pods\":" ++
    serializeList serializePod n.Pods ++ "\x7d"

/-- Serialization model of `json.Marshal(clusterCache)`: the Go `nil`
slice marshals to `null`. -/
def serializeState (c : Option (List NodeInfo)) : String :=
  "\x7b\"nodes\":" ++
    (match c with
     | none => "null"
     | some l => serializeList serializeNode l) ++ "\x7d"

/-- The SSE frame the source formats around a JSON payload. -/
def sseMessage (data : String) : String :=
  "event: updated\ndata: " ++ data ++ "\n\n"

/-- reflect.DeepEqual on the cached nodes slice versus a freshly built
one; `none` is the `nil` slice of the zero-value cache. -/
def isSameState (cache : Option (List NodeInfo)) (cand : List NodeInfo) : Bool :=
  cache = some cand

/-- The compare-and-swap step of `refreshClusterCacheAndNotify`: if the
candidate deep-equals the cached state the cache is untouched and `false`
is returned, otherwise the candidate is installed and `true` is returned. -/
def swapIfChanged (cache : Option (List NodeInfo)) (cand : List NodeInfo) :
    Option (List NodeInfo) × Bool :=
  if isSameState cache cand then (cache, false) else (some cand, true)

/-- Change detection as the source performs it, phrased as the spec's
`changed` predicate: negation of deep equality of the two states. -/
def changed (prev next : Option (List NodeInfo)) : Bool :=
  !(prev = next : Bool)

/-- One attached SSE stream session: the payloads written to its consumer,
oldest first. -/
structure Session where
  delivered : List String
deriving DecidableEq, Repr

/-- Capacity of `clusterStateEventChannel`. -/
def channelCapacity : Nat := 10

/-- Global state of the modelled process: the cluster cache (`none` before
the first successful collection), the shared buffered channel's queued
messages, and the attached sessions. -/
structure World where
  cache : Option (List NodeInfo)
  channel : List String
  sessions : List Session
deriving DecidableEq, Repr

/-- Process start: zero-value cache (nil nodes slice), empty channel, no
sessions. -/
def initialWorld : World :=
  { cache := none, channel := [], sessions := [] }

/-- refreshClusterCacheAndNotify: run `getClusterState`; on `nil` give up;
otherwise compare with the cache (DeepEqual), and if different install the
new state, marshal it, and perform one non-blocking send of the SSE
message into the shared channel, dropping it when the channel is full. -/
def refreshClusterCacheAndNotify (f : FetchResult) (order : List String)
    (w : World) : World :=
  match getClusterState f order with
  | none => w
  | some newNodes =>
      match swapIfChanged w.cache newNodes with
      | (_, false) => w
      | (newCache, true) =>
          let message := sseMessage (serializeState newCache)
          if w.channel.length < channelCapacity then
            { w with cache := newCache, channel := w.channel ++ [message] }
          else
            { w with cache := newCache, channel := w.channel }

/-- One atomic step of the interleaved system: a producer collection
cycle, the arrival of a new SSE client (which immediately receives the
marshalled current cache as its first payload, before entering the
receive loop), or one channel receive by session `i` (which writes the
received message to that consumer). -/
inductive Step where
  | refresh : FetchResult → List String → Step
  | attach : Step
  | deliver : Nat → Step

/-- Apply one step to the world. -/
def applyStep (w : World) : Step → World
  | .refresh f order => refreshClusterCacheAndNotify f order w
  | .attach =>
      { w with sessions :=
          w.sessions ++ [{ delivered := [sseMessage (serializeState w.cache)] }] }
  | .deliver i =>
      match w.channel with
      | [] => w
      | m :: rest =>
          if hi : i < w.sessions.length then
            { w with
                channel := rest,
                sessions := w.sessions.set i
                  { delivered := (w.sessions.get ⟨i, hi⟩).delivered ++ [m] } }
          else w

/-- Run a list of steps from a world. -/
def run (steps : List Step) (w : World) : World :=
  steps.foldl applyStep w

/-- Every map entry is keyed by its node's name and only carries pods
whose bound-node field is that name. -/
def goodMap (m : List (String × NodeInfo)) : Prop :=
  ∀ kv ∈ m, (kv.2).Name = kv.1 ∧ ∀ p ∈ (kv.2).Pods, p.Node = kv.1

/-- The payload written to a session when the modelled world at a given
index is read; `none` when no such session exists or nothing was written
yet. -/
def headOfSession (ss : List Session) (i : Nat) : Option String :=
  match ss[i]? with
  | none => none
  | some s => s.delivered.head?

/-- Every attached session has already received at least one payload (its
baseline); holds for every world reachable from `initialWorld`. -/
def sessionsOk (w : World) : Prop :=
  ∀ s ∈ w.sessions, s.delivered ≠ []

instance (rawNodes order : List String) : Decidable (validOrder rawNodes order) := by
  unfold validOrder; infer_instance

instance (w : World) : Decidable (sessionsOk w) := by
  unfold sessionsOk; infer_instance

/-! ### Association-map lemmas -/

theorem mapLookup_mapInsert (m : List (String × NodeInfo)) (k : String)
    (v : NodeInfo) (k' : String) :
    mapLookup (mapInsert m k v) k' = if k = k' then some v else mapLookup m k' := by
  induction m with
  | nil => simp [mapInsert, mapLookup]
  | cons hd tl ih =>
    obtain ⟨k₀, v₀⟩ := hd
    by_cases h : k₀ = k
    · subst h
      by_cases h' : k₀ = k' <;> simp [mapInsert, mapLookup, h', ih]
    · by_cases h' : k₀ = k'
      · subst h'
        simp [mapInsert, mapLookup, h]
        rw [if_neg (fun he => h he.symm)]
      · simp [mapInsert, mapLookup, h, h', ih]

theorem mapKeys_mapInsert (m : List (String × NodeInfo)) (k : String) (v : NodeInfo) :
    mapKeys (mapInsert m k v) =
      if k ∈ mapKeys m then mapKeys m else mapKeys m ++ [k] := by
  induction m with
  | nil => simp [mapInsert, mapKeys]
  | cons hd tl ih =>
    obtain ⟨k₀, v₀⟩ := hd
    by_cases h : k₀ = k
    · subst h
      simp [mapInsert, mapKeys]
    · have hne : ¬k = k₀ := fun he => h he.symm
      simp only [mapInsert, h, if_false, mapKeys, List.map_cons, ite_false] at ih ⊢
      rw [ih]
      by_cases hm : k ∈ List.map Prod.fst tl <;>
        simp [hm, hne, List.mem_cons]

theorem mapLookup_eq_none_iff (m : List (String × NodeInfo)) (k : String) :
    mapLookup m k = none ↔ k ∉ mapKeys m := by
  induction m with
  | nil => simp [mapLookup, mapKeys]
  | cons hd tl ih =>
    obtain ⟨k₀, v₀⟩ := hd
    by_cases h : k₀ = k
    · subst h; simp [mapLookup, mapKeys]
    · have hne : ¬k = k₀ := fun he => h he.symm
      simp [mapLookup, mapKeys, h, hne, ih]

theorem mapLookup_mem (m : List (String × NodeInfo)) (k : String) (v : NodeInfo)
    (h : mapLookup m k = some v) : (k, v) ∈ m := by
  induction m with
  | nil => simp [mapLookup] at h
  | cons hd tl ih =>
    obtain ⟨k₀, v₀⟩ := hd
    by_cases hk : k₀ = k
    · subst hk
      simp [mapLookup] at h
      subst h
      exact List.mem_cons_self _ _
    · simp [mapLookup, hk] at h
      exact List.mem_cons_of_mem _ (ih h)

theorem mem_mapInsert (m : List (String × NodeInfo)) (k : String) (v : NodeInfo)
    (x : String × NodeInfo) (h : x ∈ mapInsert m k v) : x = (k, v) ∨ x ∈ m := by
  induction m with
  | nil => simp [mapInsert] at h; exact Or.inl h
  | cons hd tl ih =>
    obtain ⟨k₀, v₀⟩ := hd
    by_cases hk : k₀ = k
    · subst hk
      simp [mapInsert] at h
      rcases h with h | h
      · exact Or.inl h
      · exact Or.inr (List.mem_cons_of_mem _ h)
    · simp [mapInsert, hk] at h
      rcases h with h | h
      · exact Or.inr (List.mem_cons.mpr (Or.inl h))
      · rcases ih h with h' | h'
        · exact Or.inl h'
        · exact Or.inr (List.mem_cons_of_mem _ h')

/-! ### Lemmas about the two build loops -/

theorem mapLookup_foldl_init (rawNodes : List String)
    (m : List (String × NodeInfo)) (k : String) :
    mapLookup (rawNodes.foldl (fun m n => mapInsert m n { Name := n, Pods := [] }) m) k =
      if k ∈ rawNodes then some { Name := k, Pods := [] } else mapLookup m k := by
  induction rawNodes generalizing m with
  | nil => simp
  | cons n rest ih =>
    simp only [List.foldl_cons, ih, mapLookup_mapInsert, List.mem_cons]
    by_cases hr : k ∈ rest
    · simp [hr]
    · by_cases hn : n = k
      · subst hn; simp [hr]
      · have : ¬k = n := fun he => hn he.symm
        simp [hr, hn, this]

theorem mapLookup_initNodesMap (rawNodes : List String) (k : String) :
    mapLookup (initNodesMap rawNodes) k =
      if k ∈ rawNodes then some { Name := k, Pods := [] } else none := by
  simp [initNodesMap, mapLookup_foldl_init, mapLookup]

theorem mapKeys_mapInsert_nodup (m : List (String × NodeInfo)) (k : String)
    (v : NodeInfo) (h : (mapKeys m).Nodup) : (mapKeys (mapInsert m k v)).Nodup := by
  rw [mapKeys_mapInsert]
  by_cases hm : k ∈ mapKeys m
  · simpa [hm] using h
  · simpa [hm, List.nodup_append] using h

theorem initNodesMap_keys_nodup (rawNodes : List String) :
    (mapKeys (initNodesMap rawNodes)).Nodup := by
  suffices h : ∀ m : List (String × NodeInfo), (mapKeys m).Nodup →
      (mapKeys (rawNodes.foldl (fun m n => mapInsert m n { Name := n, Pods := [] }) m)).Nodup by
    exact h [] (by simp [mapKeys])
  induction rawNodes with
  | nil => intro m hm; simpa using hm
  | cons n rest ih =>
    intro m hm
    exact ih _ (mapKeys_mapInsert_nodup m n _ hm)

theorem mem_mapKeys_initNodesMap (rawNodes : List String) (k : String) :
    k ∈ mapKeys (initNodesMap rawNodes) ↔ k ∈ rawNodes := by
  rw [← not_iff_not, ← mapLookup_eq_none_iff, mapLookup_initNodesMap]
  by_cases h : k ∈ rawNodes <;> simp [h]

theorem mapKeys_assignPods (rawPods : List RawPod) (m : List (String × NodeInfo)) :
    mapKeys (assignPods rawPods m) = mapKeys m := by
  induction rawPods generalizing m with
  | nil => simp [assignPods]
  | cons p rest ih =>
    simp only [assignPods, List.foldl_cons] at ih ⊢
    cases hl : mapLookup m p.NodeName with
    | none => simp [hl, ih]
    | some node =>
      simp only [hl]
      rw [ih, mapKeys_mapInsert]
      have hmem : p.NodeName ∈ mapKeys m := by
        by_contra hc
        rw [← mapLookup_eq_none_iff] at hc
        simp [hc] at hl
      simp [hmem]

theorem mapLookup_assignPods_congr (rawPods : List RawPod)
    (m₁ m₂ : List (String × NodeInfo))
    (h : ∀ k, mapLookup m₁ k = mapLookup m₂ k) :
    ∀ k, mapLookup (assignPods rawPods m₁) k = mapLookup (assignPods rawPods m₂) k := by
  induction rawPods generalizing m₁ m₂ with
  | nil => intro k; simpa [assignPods] using h k
  | cons p rest ih =>
    intro k
    simp only [assignPods, List.foldl_cons] at ih ⊢
    rw [h p.NodeName]
    cases hl : mapLookup m₂ p.NodeName with
    | none => exact ih m₁ m₂ h k
    | some node =>
      refine ih _ _ (fun k' => ?_) k
      rw [mapLookup_mapInsert, mapLookup_mapInsert]
      by_cases hk : p.NodeName = k' <;> simp [hk, h k']

theorem goodMap_mapInsert (m : List (String × NodeInfo)) (k : String) (v : NodeInfo)
    (hm : goodMap m) (hv : v.Name = k ∧ ∀ p ∈ v.Pods, p.Node = k) :
    goodMap (mapInsert m k v) := by
  intro kv hkv
  rcases mem_mapInsert m k v kv hkv with h | h
  · subst h; exact hv
  · exact hm kv h

theorem goodMap_initNodesMap (rawNodes : List String) :
    goodMap (initNodesMap rawNodes) := by
  suffices h : ∀ m : List (String × NodeInfo), goodMap m →
      goodMap (rawNodes.foldl (fun m n => mapInsert m n { Name := n, Pods := [] }) m) by
    exact h [] (by intro kv hkv; simp at hkv)
  induction rawNodes with
  | nil => intro m hm; simpa using hm
  | cons n rest ih =>
    intro m hm
    exact ih _ (goodMap_mapInsert m n _ hm (by simp))

theorem goodMap_assignPods (rawPods : List RawPod) (m : List (String × NodeInfo))
    (hm : goodMap m) : goodMap (assignPods rawPods m) := by
  induction rawPods generalizing m with
  | nil => simpa [assignPods] using hm
  | cons p rest ih =>
    simp only [assignPods, List.foldl_cons] at ih ⊢
    cases hl : mapLookup m p.NodeName with
    | none => exact ih m hm
    | some node =>
      refine ih _ (goodMap_mapInsert m p.NodeName _ hm ?_)
      have hmem := hm _ (mapLookup_mem m p.NodeName node hl)
      refine ⟨hmem.1, fun q hq => ?_⟩
      rcases List.mem_append.mp hq with h | h
      · exact hmem.2 q h
      · simp at h
        subst h
        simp [podInfoOf]

/-! ### Sorting lemmas -/

theorem charListLe_total (a : List Char) : ∀ b, charListLe a b = true ∨ charListLe b a = true := by
  induction a with
  | nil =>
    intro b
    left
    rfl
  | cons c₁ r₁ ih =>
    intro b
    cases b with
    | nil => right; rfl
    | cons c₂ r₂ =>
      rcases Nat.lt_trichotomy c₁.toNat c₂.toNat with h | h | h
      · left; simp [charListLe, h]
      · rcases ih r₂ with h' | h'
        · left; simp [charListLe, h, Nat.lt_irrefl, h']
        · right; simp [charListLe, h, Nat.lt_irrefl, h']
      · right; simp [charListLe, h]

theorem charListLe_trans (a : List Char) : ∀ b c, charListLe a b = true →
    charListLe b c = true → charListLe a c = true := by
  induction a with
  | nil =>
    intro b c _ _
    rfl
  | cons c₁ r₁ ih =>
    intro b c hab hbc
    cases b with
    | nil => simp [charListLe] at hab
    | cons c₂ r₂ =>
      cases c with
      | nil => simp [charListLe] at hbc
      | cons c₃ r₃ =>
        by_cases h₁ : c₁.toNat < c₂.toNat
        · by_cases h₂ : c₂.toNat < c₃.toNat
          · have h₃ : c₁.toNat < c₃.toNat := Nat.lt_trans h₁ h₂
            simp [charListLe, h₃]
          · by_cases h₃ : c₃.toNat < c₂.toNat
            · simp [charListLe, h₂, h₃] at hbc
            · have h₄ : c₁.toNat < c₃.toNat := by omega
              simp [charListLe, h₄]
        · by_cases h₂ : c₂.toNat < c₁.toNat
          · simp [charListLe, h₁, h₂] at hab
          · by_cases h₃ : c₂.toNat < c₃.toNat
            · have h₄ : c₁.toNat < c₃.toNat := by omega
              simp [charListLe, h₄]
            · by_cases h₄ : c₃.toNat < c₂.toNat
              · simp [charListLe, h₃, h₄] at hbc
              · have h₅ : ¬c₁.toNat < c₃.toNat := by omega
                have h₆ : ¬c₃.toNat < c₁.toNat := by omega
                simp [charListLe, h₁, h₂] at hab
                simp [charListLe, h₃, h₄] at hbc
                simp [charListLe, h₅, h₆]
                exact ih r₂ r₃ hab hbc

theorem charListLe_antisymm (a : List Char) : ∀ b, charListLe a b = true →
    charListLe b a = true → a = b := by
  induction a with
  | nil =>
    intro b _ hba
    cases b with
    | nil => rfl
    | cons c r => simp [charListLe] at hba
  | cons c₁ r₁ ih =>
    intro b hab hba
    cases b with
    | nil => simp [charListLe] at hab
    | cons c₂ r₂ =>
      by_cases h₁ : c₁.toNat < c₂.toNat
      · have h₂ : ¬c₂.toNat < c₁.toNat := by omega
        simp [charListLe, h₁, h₂] at hba
      · by_cases h₂ : c₂.toNat < c₁.toNat
        · simp [charListLe, h₁, h₂] at hab
        · have hnat : c₁.toNat = c₂.toNat := by omega
          have hc : c₁ = c₂ := Char.eq_of_val_eq (UInt32.toNat.inj hnat)
          simp [charListLe, h₁, h₂] at hab hba
          rw [hc, ih r₂ hab hba]

theorem strLe_antisymm (a b : String) (h₁ : strLe a b = true)
    (h₂ : strLe b a = true) : a = b := by
  cases a with
  | mk da =>
    cases b with
    | mk db =>
      rw [charListLe_antisymm da db h₁ h₂]

theorem sortNodes_sorted (l : List NodeInfo) : (sortNodes l).Sorted nodeLe := by
  letI : IsTotal NodeInfo nodeLe := ⟨fun a b => charListLe_total _ _⟩
  letI : IsTrans NodeInfo nodeLe := ⟨fun _ _ _ h₁ h₂ => charListLe_trans _ _ _ h₁ h₂⟩
  exact List.sorted_insertionSort nodeLe l

theorem sortNodes_perm (l : List NodeInfo) : (sortNodes l).Perm l :=
  List.perm_insertionSort nodeLe l

theorem eq_of_perm_sorted_nodup_names (l₁ : List NodeInfo) :
    ∀ l₂, l₁.Perm l₂ → l₁.Sorted nodeLe → l₂.Sorted nodeLe →
      (l₁.map NodeInfo.Name).Nodup → l₁ = l₂ := by
  induction l₁ with
  | nil =>
    intro l₂ hp _ _ _
    exact hp.nil_eq
  | cons a t₁ ih =>
    intro l₂ hp hs₁ hs₂ hn
    cases l₂ with
    | nil => exact absurd hp.symm.nil_eq (by simp)
    | cons b t₂ =>
      have hab : a = b := by
        by_contra hne
        have hbmem : b ∈ a :: t₁ := hp.symm.subset (List.mem_cons_self b t₂)
        have hamem : a ∈ b :: t₂ := hp.subset (List.mem_cons_self a t₁)
        have hb : b ∈ t₁ := by
          rcases List.mem_cons.mp hbmem with h | h
          · exact absurd h.symm hne
          · exact h
        have ha : a ∈ t₂ := by
          rcases List.mem_cons.mp hamem with h | h
          · exact absurd h hne
          · exact h
        have h₁ : nodeLe a b := (List.sorted_cons.mp hs₁).1 b hb
        have h₂ : nodeLe b a := (List.sorted_cons.mp hs₂).1 a ha
        have hname : a.Name = b.Name := strLe_antisymm _ _ h₁ h₂
        have : a.Name ∉ t₁.map NodeInfo.Name := (List.nodup_cons.mp hn).1
        exact this (hname ▸ List.mem_map_of_mem NodeInfo.Name hb)
      subst hab
      have ht : t₁.Perm t₂ := hp.cons_inv
      have := ih t₂ ht (List.sorted_cons.mp hs₁).2 (List.sorted_cons.mp hs₂).2
        (List.nodup_cons.mp hn).2
      rw [this]

/-! ### Determinism of the build step -/

theorem names_filterMap_lookup (m : List (String × NodeInfo)) (hg : goodMap m) :
    ∀ order : List String, (∀ k ∈ order, mapLookup m k ≠ none) →
      (order.filterMap (mapLookup m)).map NodeInfo.Name = order := by
  intro order
  induction order with
  | nil => intro _; simp
  | cons k rest ih =>
    intro h
    have hk := h k (List.mem_cons_self k rest)
    cases hl : mapLookup m k with
    | none => exact absurd hl hk
    | some v =>
      have hv : v.Name = k := (hg _ (mapLookup_mem m k v hl)).1
      simp only [List.filterMap_cons, hl, List.map_cons, hv]
      rw [ih (fun k' hk' => h k' (List.mem_cons_of_mem k hk'))]

theorem assignPods_lookup_ne_none (rawNodes : List String) (rawPods : List RawPod)
    (k : String) (hk : k ∈ mapKeys (initNodesMap rawNodes)) :
    mapLookup (assignPods rawPods (initNodesMap rawNodes)) k ≠ none := by
  rw [Ne, mapLookup_eq_none_iff, mapKeys_assignPods]
  exact fun h => h hk

theorem getClusterState_eq_nil_iff (rawNodes : List String) (rawPods : List RawPod) :
    assignPods rawPods (initNodesMap rawNodes) = [] ↔
      mapKeys (initNodesMap rawNodes) = [] := by
  constructor
  · intro h
    rw [← mapKeys_assignPods rawPods, h]
    rfl
  · intro h
    have := mapKeys_assignPods rawPods (initNodesMap rawNodes)
    rw [h] at this
    simpa [mapKeys] using this

theorem getClusterState_perm_eq (rn₁ rn₂ : List String) (pods : List RawPod)
    (o₁ o₂ : List String) (hrn : rn₁.Perm rn₂)
    (h₁ : validOrder rn₁ o₁) (h₂ : validOrder rn₂ o₂) :
    getClusterState (.ok rn₁ pods) o₁ = getClusterState (.ok rn₂ pods) o₂ := by
  have hkeys₁ := initNodesMap_keys_nodup rn₁
  have hkeys₂ := initNodesMap_keys_nodup rn₂
  have hkeysperm : (mapKeys (initNodesMap rn₁)).Perm (mapKeys (initNodesMap rn₂)) := by
    rw [List.perm_ext_iff_of_nodup hkeys₁ hkeys₂]
    intro k
    rw [mem_mapKeys_initNodesMap, mem_mapKeys_initNodesMap]
    exact ⟨fun h => hrn.subset h, fun h => hrn.symm.subset h⟩
  have hlook : ∀ k, mapLookup (assignPods pods (initNodesMap rn₁)) k =
      mapLookup (assignPods pods (initNodesMap rn₂)) k := by
    refine mapLookup_assignPods_congr pods _ _ (fun k => ?_)
    rw [mapLookup_initNodesMap, mapLookup_initNodesMap]
    by_cases h : k ∈ rn₁
    · simp [h, hrn.subset h]
    · have h' : k ∉ rn₂ := fun hc => h (hrn.symm.subset hc)
      simp [h, h']
  have hnil : (assignPods pods (initNodesMap rn₁) = []) ↔
      (assignPods pods (initNodesMap rn₂) = []) := by
    rw [getClusterState_eq_nil_iff, getClusterState_eq_nil_iff]
    constructor
    · intro h
      have hp := hkeysperm
      rw [h] at hp
      exact hp.nil_eq.symm
    · intro h
      have hp := hkeysperm.symm
      rw [h] at hp
      exact hp.nil_eq.symm
  by_cases hz : assignPods pods (initNodesMap rn₁) = []
  · have hz₂ := hnil.mp hz
    simp [getClusterState, hz, hz₂]
  · have hz₂ : ¬assignPods pods (initNodesMap rn₂) = [] := fun h => hz (hnil.mpr h)
    simp only [getClusterState, hz, hz₂, if_false, Option.some.injEq]
    set m₁ := assignPods pods (initNodesMap rn₁) with hm₁
    set m₂ := assignPods pods (initNodesMap rn₂) with hm₂
    have hfm : o₂.filterMap (mapLookup m₂) = o₂.filterMap (mapLookup m₁) := by
      apply List.filterMap_congr
      intro k _
      exact (hlook k).symm
    rw [hfm]
    have hoperm : o₁.Perm o₂ := h₁.trans (hkeysperm.trans h₂.symm)
    have hlperm : (o₁.filterMap (mapLookup m₁)).Perm (o₂.filterMap (mapLookup m₁)) :=
      hoperm.filterMap (mapLookup m₁)
    have hgood : goodMap m₁ := goodMap_assignPods pods _ (goodMap_initNodesMap rn₁)
    have hnames : (o₁.filterMap (mapLookup m₁)).map NodeInfo.Name = o₁ := by
      refine names_filterMap_lookup m₁ hgood o₁ (fun k hk => ?_)
      exact assignPods_lookup_ne_none rn₁ pods k (h₁.subset hk)
    have hnodup : ((o₁.filterMap (mapLookup m₁)).map NodeInfo.Name).Nodup := by
      rw [hnames]
      exact h₁.nodup_iff.mpr hkeys₁
    have hsortnodup :
        ((sortNodes (o₁.filterMap (mapLookup m₁))).map NodeInfo.Name).Nodup := by
      refine (List.Perm.nodup_iff ?_).mpr hnodup
      exact (sortNodes_perm _).map NodeInfo.Name
    refine eq_of_perm_sorted_nodup_names _ _ ?_ (sortNodes_sorted _) (sortNodes_sorted _)
      hsortnodup
    exact (sortNodes_perm _).trans (hlperm.trans (sortNodes_perm _).symm)

/-! ### Lemmas about the producer step and the session steps -/

theorem refresh_cases (f : FetchResult) (o : List String) (w : World) :
    refreshClusterCacheAndNotify f o w = w ∨
    ∃ newNodes, getClusterState f o = some newNodes ∧
      isSameState w.cache newNodes = false ∧
      refreshClusterCacheAndNotify f o w =
        (if w.channel.length < channelCapacity then
          { w with cache := some newNodes,
                   channel := w.channel ++ [sseMessage (serializeState (some newNodes))] }
        else { w with cache := some newNodes }) := by
  unfold refreshClusterCacheAndNotify
  cases hg : getClusterState f o with
  | none => exact Or.inl rfl
  | some newNodes =>
    cases hs : isSameState w.cache newNodes with
    | true => simp [swapIfChanged, hs]
    | false =>
      refine Or.inr ⟨newNodes, rfl, hs, ?_⟩
      simp only [swapIfChanged, hs, Bool.false_eq_true, if_false]

theorem refresh_sessions (f : FetchResult) (o : List String) (w : World) :
    (refreshClusterCacheAndNotify f o w).sessions = w.sessions := by
  rcases refresh_cases f o w with h | ⟨n, _, _, h⟩
  · rw [h]
  · rw [h]
    by_cases hc : w.channel.length < channelCapacity <;> simp [hc]

theorem refresh_cache_of_swap (f : FetchResult) (o : List String) (w : World)
    (newNodes : List NodeInfo) (hg : getClusterState f o = some newNodes)
    (hs : isSameState w.cache newNodes = false) :
    (refreshClusterCacheAndNotify f o w).cache = some newNodes := by
  unfold refreshClusterCacheAndNotify
  simp only [hg, swapIfChanged, hs, Bool.false_eq_true, if_false]
  by_cases hc : w.channel.length < channelCapacity <;> simp [hc]

theorem applyStep_sessions_length (w : World) (stp : Step) :
    w.sessions.length ≤ (applyStep w stp).sessions.length := by
  cases stp with
  | refresh f o => rw [applyStep, refresh_sessions]
  | attach => simp [applyStep]
  | deliver i =>
    cases hch : w.channel with
    | nil => simp [applyStep, hch]
    | cons m rest =>
      by_cases hi : i < w.sessions.length <;> simp [applyStep, hch, hi]

theorem applyStep_sessionsOk (w : World) (stp : Step) (h : sessionsOk w) :
    sessionsOk (applyStep w stp) := by
  cases stp with
  | refresh f o =>
    intro s hs
    rw [applyStep, refresh_sessions] at hs
    exact h s hs
  | attach =>
    intro s hs
    simp only [applyStep] at hs
    rcases List.mem_append.mp hs with hm | hm
    · exact h s hm
    · simp at hm
      subst hm
      simp
  | deliver i =>
    cases hch : w.channel with
    | nil =>
      intro s hs
      simp only [applyStep, hch] at hs
      exact h s hs
    | cons m rest =>
      by_cases hi : i < w.sessions.length
      · intro s hs
        simp only [applyStep, hch, hi, dif_pos] at hs
        rcases List.mem_or_eq_of_mem_set hs with hm | hm
        · exact h s hm
        · subst hm; simp
      · intro s hs
        simp only [applyStep, hch, hi, dif_neg, not_false_iff] at hs
        exact h s hs

theorem applyStep_headOfSession (w : World) (stp : Step) (i : Nat)
    (hi : i < w.sessions.length) (hok : sessionsOk w) :
    headOfSession (applyStep w stp).sessions i = headOfSession w.sessions i := by
  cases stp with
  | refresh f o => rw [applyStep, refresh_sessions]
  | attach =>
    simp only [applyStep, headOfSession]
    rw [List.getElem?_append_left hi]
  | deliver j =>
    cases hch : w.channel with
    | nil => simp [applyStep, hch]
    | cons m rest =>
      by_cases hj : j < w.sessions.length
      · simp only [applyStep, hch, hj, dif_pos, headOfSession]
        by_cases hij : j = i
        · subst hij
          rw [List.getElem?_set_self (by simpa using hj), List.getElem?_eq_getElem hj]
          have hne : (w.sessions.get ⟨j, hj⟩).delivered ≠ [] :=
            hok _ (w.sessions.get_mem j hj)
          cases hd : (w.sessions.get ⟨j, hj⟩).delivered with
          | nil => exact absurd hd hne
          | cons x xs => simp [List.get_eq_getElem] at hd ⊢; simp [hd]
        · rw [List.getElem?_set_ne hij]
      · simp [applyStep, hch, hj]

theorem run_headOfSession (steps : List Step) (w : World) (i : Nat)
    (hi : i < w.sessions.length) (hok : sessionsOk w) :
    headOfSession (run steps w).sessions i = headOfSession w.sessions i := by
  induction steps generalizing w with
  | nil => rfl
  | cons stp rest ih =>
    have h₁ := applyStep_headOfSession w stp i hi hok
    have h₂ : i < (applyStep w stp).sessions.length :=
      lt_of_lt_of_le hi (applyStep_sessions_length w stp)
    have h₃ := applyStep_sessionsOk w stp hok
    calc headOfSession (run (stp :: rest) w).sessions i
        = headOfSession (run rest (applyStep w stp)).sessions i := rfl
      _ = headOfSession (applyStep w stp).sessions i := ih (applyStep w stp) h₂ h₃
      _ = headOfSession w.sessions i := h₁

theorem refresh_noop_of_cache (f : FetchResult) (o : List String) (w : World)
    (n : List NodeInfo) (hg : getClusterState f o = some n) (hc : w.cache = some n) :
    refreshClusterCacheAndNotify f o w = w := by
  unfold refreshClusterCacheAndNotify
  simp [hg, swapIfChanged, isSameState, hc]

/-! ### Claims -/

/-- Claim C1, counterexample: the broadcaster is a single shared channel,
not per-session buffers. With two attached sessions and one published
notification (one message in the channel), a single receive by the first
session empties the channel: the second session gets nothing, so one
publish is not delivered to every attached session. -/
theorem claimC1_counterexample :
    (run [Step.attach, Step.attach, Step.refresh (.ok ["n1"] []) ["n1"]]
        initialWorld).channel.length = 1 ∧
    (run [Step.attach, Step.attach, Step.refresh (.ok ["n1"] []) ["n1"],
        Step.deliver 0] initialWorld).channel = [] ∧
    (run [Step.attach, Step.attach, Step.refresh (.ok ["n1"] []) ["n1"],
        Step.deliver 0] initialWorld).sessions.map
      (fun s => s.delivered.length) = [2, 1] := by
  decide

/-- Claim C1, amended: each publish performs at most one non-blocking send
into the single shared channel; when the channel is full the notification
is dropped entirely (the producer is not blocked and the channel is
unchanged); a queued notification is consumed by exactly one session,
which removes it from the channel. -/
theorem claimC1_amended :
    (∀ (f : FetchResult) (o : List String) (w : World),
      (refreshClusterCacheAndNotify f o w).channel = w.channel ∨
      ((refreshClusterCacheAndNotify f o w).channel =
          w.channel ++
            [sseMessage (serializeState (refreshClusterCacheAndNotify f o w).cache)] ∧
        w.channel.length < channelCapacity)) ∧
    (∀ (f : FetchResult) (o : List String) (w : World),
      channelCapacity ≤ w.channel.length →
      (refreshClusterCacheAndNotify f o w).channel = w.channel) ∧
    (∀ (w : World) (i : Nat) (m : String) (rest : List String),
      w.channel = m :: rest → ∀ hi : i < w.sessions.length,
      (applyStep w (Step.deliver i)).channel = rest ∧
      (applyStep w (Step.deliver i)).sessions =
        w.sessions.set i
          { delivered := (w.sessions.get ⟨i, hi⟩).delivered ++ [m] }) := by
  refine ⟨?_, ?_, ?_⟩
  · intro f o w
    rcases refresh_cases f o w with h | ⟨n, hg, hs, h⟩
    · left; rw [h]
    · by_cases hc : w.channel.length < channelCapacity
      · right
        refine ⟨?_, hc⟩
        have hcache := refresh_cache_of_swap f o w n hg hs
        rw [hcache, h]
        simp [hc]
      · left
        rw [h]
        simp [hc]
  · intro f o w hfull
    rcases refresh_cases f o w with h | ⟨n, hg, hs, h⟩
    · rw [h]
    · rw [h]
      simp [not_lt.mpr hfull]
  · intro w i m rest hch hi
    constructor <;> simp [applyStep, hch, hi]

/-- Claim C2, counterexample: the queued notification carries the payload
serialized at publish time. A session that receives such a notification
writes that queued payload even though the live store has moved on: after
two collection cycles and one attach, the delivered notification payload
is the first state's serialization, which differs from the serialization
of the store's state at delivery time. -/
theorem claimC2_counterexample :
    (run [Step.refresh (.ok ["x"] []) ["x"],
        Step.refresh (.ok ["x", "y"] []) ["x", "y"], Step.attach, Step.deliver 0]
        initialWorld).sessions.map Session.delivered =
      [[sseMessage (serializeState
          (run [Step.refresh (.ok ["x"] []) ["x"],
            Step.refresh (.ok ["x", "y"] []) ["x", "y"], Step.attach, Step.deliver 0]
            initialWorld).cache),
        sseMessage (serializeState (getClusterState (.ok ["x"] []) ["x"]))]] ∧
    sseMessage (serializeState (getClusterState (.ok ["x"] []) ["x"])) ≠
      sseMessage (serializeState
        (run [Step.refresh (.ok ["x"] []) ["x"],
          Step.refresh (.ok ["x", "y"] []) ["x", "y"], Step.attach, Step.deliver 0]
          initialWorld).cache) := by
  decide

/-- Claim C2, amended: the payload delivered for a notification is the
queued message itself, which was serialized from the state installed at
publish time (by `refreshClusterCacheAndNotify`), not re-read from the
store at delivery time. -/
theorem claimC2_amended :
    (∀ (f : FetchResult) (o : List String) (w : World) (newNodes : List NodeInfo),
      getClusterState f o = some newNodes →
      isSameState w.cache newNodes = false →
      w.channel.length < channelCapacity →
      (refreshClusterCacheAndNotify f o w).channel =
        w.channel ++ [sseMessage (serializeState (some newNodes))]) ∧
    (∀ (w : World) (i : Nat) (m : String) (rest : List String),
      w.channel = m :: rest → ∀ hi : i < w.sessions.length,
      (applyStep w (Step.deliver i)).sessions =
        w.sessions.set i
          { delivered := (w.sessions.get ⟨i, hi⟩).delivered ++ [m] }) := by
  constructor
  · intro f o w newNodes hg hs hc
    unfold refreshClusterCacheAndNotify
    simp [hg, swapIfChanged, hs, hc]
  · intro w i m rest hch hi
    simp [applyStep, hch, hi]

/-- Claim C3, counterexample: `getClusterState` sorts nodes by name but
does not sort the pods inside a node — they stay in raw pod-list order.
Two raw inputs identical up to the order of the pod list therefore build
structurally different states, and the change detector reports a change. -/
theorem claimC3_counterexample :
    getClusterState (.ok ["n1"]
        [{ Name := "p1", Namespace := "d", Phase := "Running", NodeName := "n1" },
         { Name := "p2", Namespace := "d", Phase := "Running", NodeName := "n1" }]) ["n1"] ≠
      getClusterState (.ok ["n1"]
        [{ Name := "p2", Namespace := "d", Phase := "Running", NodeName := "n1" },
         { Name := "p1", Namespace := "d", Phase := "Running", NodeName := "n1" }]) ["n1"] ∧
    changed
      (getClusterState (.ok ["n1"]
        [{ Name := "p1", Namespace := "d", Phase := "Running", NodeName := "n1" },
         { Name := "p2", Namespace := "d", Phase := "Running", NodeName := "n1" }]) ["n1"])
      (getClusterState (.ok ["n1"]
        [{ Name := "p2", Namespace := "d", Phase := "Running", NodeName := "n1" },
         { Name := "p1", Namespace := "d", Phase := "Running", NodeName := "n1" }]) ["n1"]) = true := by
  decide

/-- Claim C3, amended: the build sorts the nodes by identity but keeps
each node's workloads in raw pod-list order. Consequently order
insensitivity holds only for the node list: two raw inputs with permuted
node lists and the same pod list (under any admissible map iteration
orders) build equal states, on which the change detector reports no
change. -/
theorem claimC3_amended (rn₁ rn₂ : List String) (pods : List RawPod)
    (o₁ o₂ : List String) (hrn : rn₁.Perm rn₂)
    (h₁ : validOrder rn₁ o₁) (h₂ : validOrder rn₂ o₂) :
    getClusterState (.ok rn₁ pods) o₁ = getClusterState (.ok rn₂ pods) o₂ ∧
    changed (getClusterState (.ok rn₁ pods) o₁)
      (getClusterState (.ok rn₂ pods) o₂) = false := by
  have he := getClusterState_perm_eq rn₁ rn₂ pods o₁ o₂ hrn h₁ h₂
  exact ⟨he, by simp [changed, he]⟩

/-- Claim C3, witness: a concrete instantiation of the amended claim. -/
theorem claimC3_witness :
    (["b", "a"] : List String).Perm ["a", "b"] ∧
    validOrder ["b", "a"] ["b", "a"] ∧ validOrder ["a", "b"] ["a", "b"] ∧
    (getClusterState
        (.ok ["b", "a"] [{ Name := "p", Namespace := "d", Phase := "Running", NodeName := "a" }])
        ["b", "a"] =
      getClusterState
        (.ok ["a", "b"] [{ Name := "p", Namespace := "d", Phase := "Running", NodeName := "a" }])
        ["a", "b"] ∧
      changed
        (getClusterState
          (.ok ["b", "a"] [{ Name := "p", Namespace := "d", Phase := "Running", NodeName := "a" }])
          ["b", "a"])
        (getClusterState
          (.ok ["a", "b"] [{ Name := "p", Namespace := "d", Phase := "Running", NodeName := "a" }])
          ["a", "b"]) = false) :=
  ⟨by decide, by decide, by decide,
    claimC3_amended ["b", "a"] ["a", "b"]
      [{ Name := "p", Namespace := "d", Phase := "Running", NodeName := "a" }]
      ["b", "a"] ["a", "b"] (by decide) (by decide) (by decide)⟩

/-- Claim C4: a successful collection cycle that returns zero nodes yields
the Go `nil` slice, which `refreshClusterCacheAndNotify` treats exactly
like a failed fetch: an empty cluster state is never installed over a
previously non-empty one, and no notification is published — the code
cannot distinguish "zero nodes" from "not yet initialized" or from a
collection error. -/
theorem claimC4_zero_nodes :
    getClusterState (.ok [] []) [] = none ∧
    getClusterState
      (.ok [] [{ Name := "p1", Namespace := "d", Phase := "Running", NodeName := "n1" }]) [] =
      none ∧
    getClusterState (.ok [] []) [] = getClusterState .errNodes [] ∧
    refreshClusterCacheAndNotify (.ok [] []) []
        { cache := some [{ Name := "n1", Pods := [] }], channel := [], sessions := [] } =
      { cache := some [{ Name := "n1", Pods := [] }], channel := [], sessions := [] } := by
  decide

/-- Claim C5: a collection cycle failing with a CollectionError (either
fetch) is skipped atomically: the world — cache (snapshot), channel
(broadcaster) and sessions — is left completely untouched, so no
notification is published and the prior cache is never cleared. -/
theorem claimC5_skip_on_error (o : List String) (w : World) (ns : List String) :
    refreshClusterCacheAndNotify .errNodes o w = w ∧
    refreshClusterCacheAndNotify (.errPods ns) o w = w :=
  ⟨rfl, rfl⟩

/-- Claim C6: the compare-and-swap is an idempotent no-op on repeat: a
swap that returned true cannot return true again for the same candidate,
a candidate equal to the cache leaves it untouched and returns false, and
a full collection cycle repeated with the same fetch outcome leaves the
world (cache and channel, hence no notification) unchanged. -/
theorem claimC6_idempotent (cache : Option (List NodeInfo)) (cand : List NodeInfo)
    (f : FetchResult) (o : List String) (w : World) :
    (swapIfChanged (swapIfChanged cache cand).1 cand).2 = false ∧
    swapIfChanged (some cand) cand = (some cand, false) ∧
    refreshClusterCacheAndNotify f o (refreshClusterCacheAndNotify f o w) =
      refreshClusterCacheAndNotify f o w := by
  refine ⟨?_, ?_, ?_⟩
  · by_cases h : cache = some cand <;>
      simp [swapIfChanged, isSameState, h]
  · simp [swapIfChanged, isSameState]
  · rcases refresh_cases f o w with h | ⟨n, hg, hs, h⟩
    · rw [h]
      exact h
    · have hc : (refreshClusterCacheAndNotify f o w).cache = some n :=
        refresh_cache_of_swap f o w n hg hs
      exact refresh_noop_of_cache f o _ n hg hc

/-- Claim C7: a newly attached session synchronously receives, as its
first delivered payload, the serialization of the store's state read at
attach time, and that payload stays the session's first delivered item
under any further steps — every notification forwarded to that consumer
comes after the baseline. -/
theorem claimC7_baseline_first :
    (∀ w : World, (applyStep w Step.attach).sessions.getLast? =
        some { delivered := [sseMessage (serializeState w.cache)] }) ∧
    (∀ (steps : List Step) (w : World) (i : Nat),
      i < w.sessions.length → sessionsOk w →
      headOfSession (run steps w).sessions i = headOfSession w.sessions i) := by
  constructor
  · intro w
    simp [applyStep]
  · exact run_headOfSession

/-- Claim C7, witness: a concrete instantiation — the baseline of an
attached session survives a refresh and a delivery. -/
theorem claimC7_witness :
    headOfSession
      (run [Step.refresh (.ok ["n1"] []) ["n1"], Step.deliver 0]
        { cache := none, channel := [],
          sessions := [{ delivered := ["base"] }] }).sessions 0 =
      headOfSession [{ delivered := ["base"] }] 0 :=
  claimC7_baseline_first.2 [Step.refresh (.ok ["n1"] []) ["n1"], Step.deliver 0]
    { cache := none, channel := [], sessions := [{ delivered := ["base"] }] } 0
    (by decide) (by decide)

/-- Claim C8: in every state built by a successful collection cycle,
every pod listed under a node carries that node's name in its bound-node
field, and no two nodes of the state share a name. -/
theorem claimC8_invariants (rawNodes : List String) (rawPods : List RawPod)
    (o : List String) (nodes : List NodeInfo) (hv : validOrder rawNodes o)
    (hg : getClusterState (.ok rawNodes rawPods) o = some nodes) :
    (∀ n ∈ nodes, ∀ p ∈ n.Pods, p.Node = n.Name) ∧
    (nodes.map NodeInfo.Name).Nodup := by
  simp only [getClusterState] at hg
  by_cases hz : assignPods rawPods (initNodesMap rawNodes) = []
  · simp [hz] at hg
  · simp only [hz, if_false, Option.some.injEq] at hg
    subst hg
    have hgood : goodMap (assignPods rawPods (initNodesMap rawNodes)) :=
      goodMap_assignPods rawPods _ (goodMap_initNodesMap rawNodes)
    constructor
    · intro n hn p hp
      have hn' : n ∈ o.filterMap (mapLookup (assignPods rawPods (initNodesMap rawNodes))) :=
        (sortNodes_perm _).subset hn
      rcases List.mem_filterMap.mp hn' with ⟨k, _, hlk⟩
      have hkv := hgood _ (mapLookup_mem _ k n hlk)
      rw [hkv.1]
      exact hkv.2 p hp
    · have hne : ∀ k ∈ o, mapLookup (assignPods rawPods (initNodesMap rawNodes)) k ≠ none :=
        fun k hk => assignPods_lookup_ne_none rawNodes rawPods k (hv.subset hk)
      have hnames := names_filterMap_lookup _ hgood o hne
      have hnodup :
          ((o.filterMap (mapLookup (assignPods rawPods (initNodesMap rawNodes)))).map
            NodeInfo.Name).Nodup := by
        rw [hnames]
        exact hv.nodup_iff.mpr (initNodesMap_keys_nodup rawNodes)
      exact (((sortNodes_perm _).map NodeInfo.Name).nodup_iff).mpr hnodup

/-- Claim C8, witness: a concrete instantiation of the invariants. -/
theorem claimC8_witness :
    validOrder ["n1"] ["n1"] ∧
    getClusterState
        (.ok ["n1"] [{ Name := "p1", Namespace := "d", Phase := "Running", NodeName := "n1" }])
        ["n1"] =
      some [{ Name := "n1",
              Pods := [{ Name := "p1", Namespace := "d", Status := "Running", Node := "n1" }] }] ∧
    ((∀ n ∈ [NodeInfo.mk "n1" [PodInfo.mk "p1" "d" "Running" "n1"]],
        ∀ p ∈ n.Pods, p.Node = n.Name) ∧
      (([NodeInfo.mk "n1" [PodInfo.mk "p1" "d" "Running" "n1"]]).map
        NodeInfo.Name).Nodup) :=
  ⟨by decide, by decide,
    claimC8_invariants ["n1"]
      [{ Name := "p1", Namespace := "d", Phase := "Running", NodeName := "n1" }] ["n1"]
      [{ Name := "n1",
         Pods := [{ Name := "p1", Namespace := "d", Status := "Running", Node := "n1" }] }]
      (by decide) (by decide)⟩

/-- Claim C9: the build is deterministic — for a fixed raw node list and
raw pod list, its result does not depend on the (unspecified) Go map
iteration order: any two admissible iteration orders give the identical
canonical output, with the same node order and the same pod order within
each node. -/
theorem claimC9_deterministic (rawNodes : List String) (rawPods : List RawPod)
    (o₁ o₂ : List String) (h₁ : validOrder rawNodes o₁) (h₂ : validOrder rawNodes o₂) :
    getClusterState (.ok rawNodes rawPods) o₁ = getClusterState (.ok rawNodes rawPods) o₂ :=
  getClusterState_perm_eq rawNodes rawNodes rawPods o₁ o₂ (List.Perm.refl rawNodes) h₁ h₂

/-- Claim C9, witness: a concrete instantiation with two different map
iteration orders. -/
theorem claimC9_witness :
    validOrder ["b", "a"] ["a", "b"] ∧ validOrder ["b", "a"] ["b", "a"] ∧
    getClusterState (.ok ["b", "a"] []) ["a", "b"] =
      getClusterState (.ok ["b", "a"] []) ["b", "a"] :=
  ⟨by decide, by decide,
    claimC9_deterministic ["b", "a"] [] ["a", "b"] ["b", "a"] (by decide) (by decide)⟩

/-- Claim C10: notifications outlive sessions. Two collection cycles
publish into the shared channel while no session is attached; both
messages stay queued. A session attaching afterwards receives its
baseline (the second state) and then forwards the first queued payload —
a payload serialized from a state strictly older than the baseline it
already received. -/
theorem claimC10_stale_queued :
    (run [Step.refresh (.ok ["a"] []) ["a"],
        Step.refresh (.ok ["a", "b"] []) ["a", "b"]] initialWorld).sessions = [] ∧
    (run [Step.refresh (.ok ["a"] []) ["a"],
        Step.refresh (.ok ["a", "b"] []) ["a", "b"]] initialWorld).channel.length = 2 ∧
    (run [Step.refresh (.ok ["a"] []) ["a"],
        Step.refresh (.ok ["a", "b"] []) ["a", "b"], Step.attach, Step.deliver 0]
        initialWorld).sessions.map Session.delivered =
      [[sseMessage (serializeState (getClusterState (.ok ["a", "b"] []) ["a", "b"])),
        sseMessage (serializeState (getClusterState (.ok ["a"] []) ["a"]))]] ∧
    getClusterState (.ok ["a"] []) ["a"] ≠
      getClusterState (.ok ["a", "b"] []) ["a", "b"] := by
  decide

/-- Claim C1, witness: concrete instantiations of the amended claim — a
publish against a full channel leaves it unchanged, and a delivery hands
the queued message to exactly the receiving session. -/
theorem claimC1_witness :
    (refreshClusterCacheAndNotify (.ok ["n1"] []) ["n1"]
        { cache := none,
          channel := ["a", "b", "c", "d", "e", "f", "g", "h", "i", "j"],
          sessions := [] }).channel =
      ["a", "b", "c", "d", "e", "f", "g", "h", "i", "j"] ∧
    (applyStep
        { cache := none, channel := ["m"], sessions := [{ delivered := ["b"] }] }
        (Step.deliver 0)).channel = [] ∧
    (applyStep
        { cache := none, channel := ["m"], sessions := [{ delivered := ["b"] }] }
        (Step.deliver 0)).sessions =
      ([{ delivered := ["b"] }] : List Session).set 0
        { delivered := (([{ delivered := ["b"] }] : List Session).get
            ⟨0, by decide⟩).delivered ++ ["m"] } := by
  refine ⟨?_, ?_, ?_⟩
  · exact claimC1_amended.2.1 (.ok ["n1"] []) ["n1"] _ (by decide)
  · exact (claimC1_amended.2.2
      { cache := none, channel := ["m"], sessions := [{ delivered := ["b"] }] }
      0 "m" [] rfl (by decide)).1
  · exact (claimC1_amended.2.2
      { cache := none, channel := ["m"], sessions := [{ delivered := ["b"] }] }
      0 "m" [] rfl (by decide)).2

/-- Claim C2, witness: a concrete instantiation of the amended claim —
the first publish enqueues the serialization of the newly installed
state. -/
theorem claimC2_witness :
    (refreshClusterCacheAndNotify (.ok ["n1"] []) ["n1"] initialWorld).channel =
      [sseMessage (serializeState (some [{ Name := "n1", Pods := [] }]))] := by
  have h := claimC2_amended.1 (.ok ["n1"] []) ["n1"] initialWorld
    [{ Name := "n1", Pods := [] }] (by decide) (by decide) (by decide)
  simpa using h
